import Mathlib

/-!
The repository calmh/proxy: a caching decorator for HTTP handlers.

A shallow embedding of `src/proxy.go` (`New`, `response`, `Proxy.ServeHTTP`,
`writeResponse`) together with the parts of the Go standard library and of the two
dependencies (`groupcache/lru`, `net/http/httptest`) that the code calls.

Conventions of the embedding:

* Go strings are `String`, byte slices are `List UInt8`, Go `int`/`int64` are `Int`
  (none of the arithmetic below can overflow for representable times).
* A `time.Time` is the number of nanoseconds since the Unix epoch, a `time.Duration`
  a number of nanoseconds.
* `http.Header` (a `map[string][]string`) is an association list with unique keys.
* A panic is the result `none`.
* The `http.ResponseWriter` handed to `ServeHTTP` is an interface: it is modelled by
  the header map it exposes and the log of the calls made on it. Like the writers of
  `net/http` and `net/http/httptest`, it panics in `WriteHeader` on a status code
  outside `100..999` unless its header is already written.
* `float64` values are modelled exactly, as a mantissa and a binary exponent, with
  round to nearest even; every `float64` that occurs is in the normal range.
* The wrapped handler is modelled by the sequence of calls it makes on the
  `ResponseWriter` it is given; every invocation is logged.
* `singleflight.Group.Do` with no other call in flight runs its function and
  returns its result; only this sequential behaviour is modelled.
-/

namespace CacheProxy

/-! ## `fmt`: the verb `%d` -/

/-- The decimal digit `d` as a character (`'0' + d`). -/
def digitChar (d : Nat) : Char := Char.ofNat (48 + d)

/-- Decimal digits of `n`, most significant first; `fuel` bounds the number of digits. -/
def formatDigits : Nat → Nat → List Char
  | 0, _ => []
  | fuel + 1, n =>
    if n < 10 then [digitChar n] else formatDigits fuel (n / 10) ++ [digitChar (n % 10)]

/-- Decimal representation of a natural number. -/
def formatNat (n : Nat) : List Char := formatDigits (n + 1) n

/-- The verb `%d` applied to an integer: decimal digits, preceded by `-` when negative. -/
def formatInt : Int → String
  | Int.ofNat n => String.mk (formatNat n)
  | Int.negSucc n => String.mk ('-' :: formatNat (n + 1))

/-! ## `time` -/

/-- One second, `time.Second`, in nanoseconds. -/
def Second : Int := 1000000000

/-- Seconds between January 1, year 1 (the zero `time.Time`) and the Unix epoch. -/
def unixToInternal : Int := 62135596800

/-- The method `Time.Truncate`: round `t` down to a multiple of `d` since the zero time;
for `d <= 0` the time is returned unchanged. -/
def Truncate (t d : Int) : Int :=
  if d ≤ 0 then t else t - (t + unixToInternal * Second) % d

/-- The method `Time.Unix`: whole seconds since the Unix epoch (rounded down). -/
def Unix (t : Int) : Int := t / Second

/-- The method `Time.Add`. -/
def Add (t d : Int) : Int := t + d

/-- Number of binary digits of `n`; `fuel` bounds the number of digits. -/
def bitLength : Nat → Nat → Nat
  | 0, _ => 0
  | fuel + 1, n => if n = 0 then 0 else bitLength fuel (n / 2) + 1

/-- A finite `float64` value, `mant * 2 ^ exp`. -/
structure Float64 where
  mant : Int
  exp : Int

/-- The positive rational `a / b` rounded to 53 significant bits, ties to even, as a
mantissa and an exponent. -/
def roundPos (a b : Nat) : Nat × Int :=
  let k : Int := (bitLength (a + 1) a : Int) - (bitLength (b + 1) b : Int)
  let ge : Bool :=
    if 0 ≤ k then decide (b * 2 ^ k.toNat ≤ a) else decide (b ≤ a * 2 ^ (-k).toNat)
  let e : Int := (if ge then k else k - 1) - 52
  let n : Nat := if 0 ≤ e then a else a * 2 ^ (-e).toNat
  let d : Nat := if 0 ≤ e then b * 2 ^ e.toNat else b
  let m := n / d
  let r := n % d
  (if d < 2 * r ∨ (2 * r = d ∧ m % 2 = 1) then m + 1 else m, e)

/-- The rational `num / den` rounded to the nearest `float64`. -/
def roundRat (num : Int) (den : Nat) : Float64 :=
  if num = 0 then { mant := 0, exp := 0 }
  else
    let me := roundPos num.natAbs den
    { mant := if num < 0 then -(me.1 : Int) else (me.1 : Int), exp := me.2 }

/-- The conversion `float64(i)` of an integer below `2 ^ 53` in absolute value, which
is exact. The seconds and the nanoseconds of an `int64` duration are below `2 ^ 34`. -/
def Float64.ofInt (i : Int) : Float64 := { mant := i, exp := 0 }

/-- The `float64` sum: the exact sum, rounded; a zero operand leaves the other one. -/
def Float64.add (x y : Float64) : Float64 :=
  if x.mant = 0 then y
  else if y.mant = 0 then x
  else
    let e := min x.exp y.exp
    let num := x.mant * 2 ^ (x.exp - e).toNat + y.mant * 2 ^ (y.exp - e).toNat
    if 0 ≤ e then roundRat (num * 2 ^ e.toNat) 1 else roundRat num (2 ^ (-e).toNat)

/-- The `float64` quotient: the exact quotient, rounded. -/
def Float64.div (x y : Float64) : Float64 :=
  let s : Int := if y.mant < 0 then -1 else 1
  if 0 ≤ x.exp - y.exp then
    roundRat (s * x.mant * 2 ^ (x.exp - y.exp).toNat) y.mant.natAbs
  else roundRat (s * x.mant) (y.mant.natAbs * 2 ^ (y.exp - x.exp).toNat)

/-- The conversion `int(f)`: the integer part, rounded toward zero. -/
def Float64.toInt (x : Float64) : Int :=
  if 0 ≤ x.exp then x.mant * 2 ^ x.exp.toNat else Int.tdiv x.mant (2 ^ (-x.exp).toNat)

/-- The method `Duration.Seconds`:
`sec := d / Second; nsec := d % Second; return float64(sec) + float64(nsec)/1e9`,
with the truncated division and remainder of Go. -/
def Seconds (d : Int) : Float64 :=
  let sec := Int.tdiv d Second
  let nsec := Int.tmod d Second
  (Float64.ofInt sec).add ((Float64.ofInt nsec).div (Float64.ofInt 1000000000))

/-- The expression `int(d.Seconds())` of line 62. -/
def secondsInt (d : Int) : Int := (Seconds d).toInt

/-! ## `net/textproto` and `net/http`: header maps -/

/-- The type `http.Header`. -/
abbrev Header := AList (fun _ : String => List String)

/-- Token characters of RFC 7230 (`validHeaderFieldByte`). -/
def validHeaderFieldByte (c : Char) : Bool :=
  c.isAlphanum || decide (c.toNat ∈ [33, 35, 36, 37, 38, 39, 42, 43, 45, 46, 94, 95, 96, 124, 126])

/-- The casing loop of `canonicalMIMEHeaderKey`: upper case for the first letter and
for a letter after a dash, lower case elsewhere. -/
def canonicalCase : Bool → List Char → List Char
  | _, [] => []
  | upper, c :: cs =>
    let c1 := if upper && c.isLower then c.toUpper
              else if !upper && c.isUpper then c.toLower else c
    c1 :: canonicalCase (c1 == '-') cs

/-- The function `textproto.CanonicalMIMEHeaderKey`: a key holding a byte that is not a
token character is returned unchanged. -/
def CanonicalMIMEHeaderKey (s : String) : String :=
  if s.data.all validHeaderFieldByte then String.mk (canonicalCase true s.data) else s

/-- The method `Header.Get`: first value of the canonical key, `""` when there is none. -/
def Header.Get (h : Header) (key : String) : String :=
  match h.lookup (CanonicalMIMEHeaderKey key) with
  | some (v :: _) => v
  | _ => ""

/-- The method `Header.Set`: the canonical key gets the single value `value`. -/
def Header.Set (h : Header) (key value : String) : Header :=
  h.insert (CanonicalMIMEHeaderKey key) [value]

/-- The method `Header.Del`. -/
def Header.Del (h : Header) (key : String) : Header :=
  h.erase (CanonicalMIMEHeaderKey key)

/-! ## Library functions taken as parameters -/

/-- Standard library functions whose result is only passed along. -/
structure Env where
  /-- The function `http.DetectContentType`. -/
  DetectContentType : List UInt8 → String
  /-- The method `Time.Format` with the layout `time.RFC1123`. -/
  FormatRFC1123 : Int → String

/-! ## `net/http/httptest`: the response recorder -/

/-- The type `httptest.ResponseRecorder`. -/
structure ResponseRecorder where
  Code : Int
  HeaderMap : Header
  Body : List UInt8
  Flushed : Bool
  snapHeader : Option Header
  wroteHeader : Bool

/-- The literal `&httptest.ResponseRecorder{Body: new(bytes.Buffer)}` of the producer:
every other field has its zero value, `Code` included. -/
def newRecorder : ResponseRecorder :=
  { Code := 0, HeaderMap := ∅, Body := [], Flushed := false, snapHeader := none,
    wroteHeader := false }

/-- The method `ResponseRecorder.WriteHeader`: only the first call counts, and a code
outside `100..999` panics (`checkWriteHeaderCode`). -/
def ResponseRecorder.WriteHeader (rw : ResponseRecorder) (code : Int) :
    Option ResponseRecorder :=
  if rw.wroteHeader then some rw
  else if code < 100 ∨ code > 999 then none
  else some { rw with Code := code, wroteHeader := true, snapHeader := some rw.HeaderMap }

/-- The unexported method `ResponseRecorder.writeHeader`, called by `Write`: sniff a
`Content-Type` when none is set, then `WriteHeader(200)`. -/
def ResponseRecorder.writeHeader (env : Env) (rw : ResponseRecorder) (b : List UInt8) :
    Option ResponseRecorder :=
  if rw.wroteHeader then some rw
  else
    let m := rw.HeaderMap
    let hasType := (m.lookup "Content-Type").isSome
    let hasTE := decide (m.Get "Transfer-Encoding" ≠ "")
    let m1 := if !hasType && !hasTE then m.Set "Content-Type" (env.DetectContentType b) else m
    ResponseRecorder.WriteHeader { rw with HeaderMap := m1 } 200

/-- The method `ResponseRecorder.Write`. -/
def ResponseRecorder.Write (env : Env) (rw : ResponseRecorder) (buf : List UInt8) :
    Option ResponseRecorder :=
  match rw.writeHeader env buf with
  | none => none
  | some rw1 => some { rw1 with Body := rw1.Body ++ buf }

/-- The method `ResponseRecorder.Flush`. -/
def ResponseRecorder.Flush (rw : ResponseRecorder) : Option ResponseRecorder :=
  match (if rw.wroteHeader then some rw else rw.WriteHeader 200) with
  | none => none
  | some rw1 => some { rw1 with Flushed := true }

/-- The header map of `ResponseRecorder.Result()`: the snapshot taken by the first
`WriteHeader`, or a copy of the header map when the header was never written. -/
def ResponseRecorder.ResultHeader (rw : ResponseRecorder) : Header :=
  match rw.snapHeader with
  | some h => h
  | none => rw.HeaderMap

/-! ## The wrapped handler -/

/-- An HTTP request, as far as the proxy and a handler can look at it. `URL` is the
result of `req.URL.String()`. -/
structure Request where
  Method : String
  URL : String
  Header : Header
  Body : List UInt8

/-- A call a handler makes on its `http.ResponseWriter`. The header map returned by
`Header()` is mutated by assigning and deleting keys (`Set`, `Add` and `Del` are
compositions of these). -/
inductive HandlerCall where
  | headerAssign (key : String) (values : List String)
  | headerDelete (key : String)
  | WriteHeader (code : Int)
  | Write (buf : List UInt8)
  | Flush

/-- An `http.Handler`: the calls it makes for a request, in order. -/
abbrev Handler := Request → List HandlerCall

/-- One call of the handler on the recorder. -/
def ResponseRecorder.call (env : Env) (rw : ResponseRecorder) :
    HandlerCall → Option ResponseRecorder
  | .headerAssign k v => some { rw with HeaderMap := rw.HeaderMap.insert k v }
  | .headerDelete k => some { rw with HeaderMap := rw.HeaderMap.erase k }
  | .WriteHeader code => rw.WriteHeader code
  | .Write buf => rw.Write env buf
  | .Flush => rw.Flush

/-- Run the calls of a handler on a recorder; `none` when one of them panics. -/
def ResponseRecorder.run (env : Env) : ResponseRecorder → List HandlerCall →
    Option ResponseRecorder
  | rw, [] => some rw
  | rw, c :: cs =>
    match rw.call env c with
    | none => none
    | some rw1 => ResponseRecorder.run env rw1 cs

/-! ## `groupcache/lru` -/

/-- The type `response` of `proxy.go`. -/
structure response where
  code : Int
  header : Header
  body : List UInt8

/-- The type `lru.Cache`: the entries, most recently used first. `MaxEntries = 0` means
no limit. -/
structure Cache where
  MaxEntries : Int
  ll : List (String × response)

/-- The function `lru.New`. -/
def Cache.New (maxEntries : Int) : Cache := { MaxEntries := maxEntries, ll := [] }

/-- The value stored under `key`, without touching the recency order. -/
def Cache.lookup (c : Cache) (key : String) : Option response :=
  (c.ll.find? (fun e => e.1 = key)).map (fun e => e.2)

/-- The method `Cache.Get`: a hit moves the entry to the front. -/
def Cache.Get (c : Cache) (key : String) : Option response × Cache :=
  match c.ll.find? (fun e => e.1 = key) with
  | some e => (some e.2, { c with ll := e :: c.ll.eraseP (fun e => e.1 = key) })
  | none => (none, c)

/-- The method `Cache.RemoveOldest`. -/
def Cache.RemoveOldest (c : Cache) : Cache := { c with ll := c.ll.dropLast }

/-- The method `Cache.Add`: an existing entry is updated and moved to the front; a new
entry is pushed to the front and the oldest entry is removed when the limit is
exceeded. -/
def Cache.Add (c : Cache) (key : String) (value : response) : Cache :=
  match c.ll.find? (fun e => e.1 = key) with
  | some _ => { c with ll := (key, value) :: c.ll.eraseP (fun e => e.1 = key) }
  | none =>
    let c1 : Cache := { c with ll := (key, value) :: c.ll }
    if c1.MaxEntries ≠ 0 ∧ (c1.ll.length : Int) > c1.MaxEntries then c1.RemoveOldest else c1

/-! ## The caller's `http.ResponseWriter` -/

/-- A call received by the caller's writer; `WriteHeader` records the header map as it
is at the time of the call. -/
inductive WriterCall where
  | WriteHeader (code : Int) (header : Header)
  | Write (buf : List UInt8)

/-- The caller's `http.ResponseWriter`: its header map and the calls it has received. -/
structure ResponseWriter where
  header : Header
  calls : List WriterCall

/-- A writer that has not been touched. -/
def ResponseWriter.fresh : ResponseWriter := { header := ∅, calls := [] }

/-- The check `checkWriteHeaderCode` of `net/http`: the codes `WriteHeader` accepts. -/
def validStatusCode (code : Int) : Bool := decide (100 ≤ code) && decide (code ≤ 999)

/-- Whether the writer has written its header: it has, once it has received a call. -/
def ResponseWriter.wroteHeader (w : ResponseWriter) : Bool := !w.calls.isEmpty

/-- The method `WriteHeader` of the caller's writer: the call is logged; a writer that
has not written its header panics on a code that `checkWriteHeaderCode` rejects. -/
def ResponseWriter.WriteHeader (w : ResponseWriter) (code : Int) : Option ResponseWriter :=
  if !w.wroteHeader && !validStatusCode code then none
  else some { w with calls := w.calls ++ [WriterCall.WriteHeader code w.header] }

/-- The method `Write` of the caller's writer: the call is logged. -/
def ResponseWriter.Write (w : ResponseWriter) (buf : List UInt8) : ResponseWriter :=
  { w with calls := w.calls ++ [WriterCall.Write buf] }

/-! ## `proxy.go` -/

/-- The type `Proxy`. The `singleflight.Group` carries no state between sequential
calls and is left out. The field `stored` is the invariant of the store: the only
call of `cache.Add` (line 66) is under the condition `r.code == http.StatusOK` of
line 61, so every stored snapshot has status 200. `New` starts from the empty store
and `ServeHTTP` keeps the property (`ServeHTTP_stored`). -/
structure Proxy where
  ttl : Int
  next : Handler
  cache : Cache
  stored : ∀ e ∈ cache.ll, e.2.code = 200

/-- The function `New`. -/
def New (ttl : Int) (size : Int) (next : Handler) : Proxy :=
  { ttl := ttl, next := next, cache := Cache.New size,
    stored := fun _ h => absurd h (List.not_mem_nil _) }

/-- The function `writeResponse`: copy every header entry, write the status code,
write the body. A panic of `w.WriteHeader` ends it before the body is written. -/
def writeResponse (w : ResponseWriter) (r : response) : Option ResponseWriter :=
  let h := r.header.entries.foldl (fun m e => m.insert e.1 e.2) w.header
  match ResponseWriter.WriteHeader { w with header := h } r.code with
  | none => none
  | some w1 => some (w1.Write r.body)

/-- The function `http.Error`: drop `Content-Length`, set the two headers, write the
code and the message followed by a newline. It is only reached with a non-nil
error, which the producer never returns. -/
def httpError (w : ResponseWriter) (error : String) (code : Int) : Option ResponseWriter :=
  let h := ((w.header.Del "Content-Length").Set "Content-Type"
    "text/plain; charset=utf-8").Set "X-Content-Type-Options" "nosniff"
  match ResponseWriter.WriteHeader { w with header := h } code with
  | none => none
  | some w1 => some (w1.Write (error.push (Char.ofNat 10)).toUTF8.toList)

/-- The cache key of line 38: `fmt.Sprintf("%s-%s-%d", method, url, bucket)`. -/
def keyOf (method url : String) (bucket : Int) : String :=
  method ++ "-" ++ url ++ "-" ++ formatInt bucket

/-- The cache key of a request observed at time `now` by a proxy with the given TTL. -/
def cacheKey (req : Request) (now ttl : Int) : String :=
  keyOf req.Method req.URL (Unix (Truncate now ttl))

/-- The condition of line 61. -/
def cacheable (r : response) (req : Request) : Bool :=
  decide (r.code = 200) &&
    (decide (req.Method = "GET") || decide (req.Method = "HEAD") ||
      decide (req.Method = "OPTIONS"))

/-- The snapshot of lines 54 to 58: what the recorder holds after the handler ran. -/
def snapshot (env : Env) (next : Handler) (req : Request) : Option response :=
  match ResponseRecorder.run env newRecorder (next req) with
  | none => none
  | some wr => some { code := wr.Code, header := wr.ResultHeader, body := wr.Body }

/-- The header rewrite of lines 62 to 65. -/
def rewriteHeader (env : Env) (ttl now : Int) (h : Header) : Header :=
  let h1 := h.Set "Cache-Control" ("max-age=" ++ formatInt (secondsInt ttl))
  let h2 := h1.Set "Expires" (env.FormatRFC1123 (Add now ttl))
  let h3 := h2.Set "X-Cache-Date" (h2.Get "Date")
  h3.Del "Date"

/-- The function passed to `single.Do` (lines 48 to 70); `c` is the store as the
lookup of line 41 left it and `now` the clock reading of line 63. The result is the
snapshot, the error (always `nil`) and the store. -/
def producer (env : Env) (p : Proxy) (c : Cache) (req : Request) (key : String)
    (now : Int) : Option (response × Option String × Cache) :=
  match snapshot env p.next req with
  | none => none
  | some r =>
    if cacheable r req then
      let r1 : response := { r with header := rewriteHeader env p.ttl now r.header }
      some (r1, none, c.Add key r1)
    else some (r, none, c)

/-- What a call of `ServeHTTP` leaves behind: the caller's writer, the cache, and the
requests the wrapped handler was invoked with. -/
structure Outcome where
  w : ResponseWriter
  cache : Cache
  invoked : List Request

/-- The method `Proxy.ServeHTTP`; `now1` is the clock reading of line 38 and `now2`
that of line 63. The call `p.single.Do(key, fn)` runs `fn` and hands back its result.
The result is `none` when the handler run or the caller's writer panics. -/
def ServeHTTP (env : Env) (p : Proxy) (w : ResponseWriter) (req : Request)
    (now1 now2 : Int) : Option Outcome :=
  let key := cacheKey req now1 p.ttl
  match p.cache.Get key with
  | (some r, c) =>
    (writeResponse w r).map (fun w1 => { w := w1, cache := c, invoked := [] })
  | (none, c) =>
    match producer env p c req key now2 with
    | none => none
    | some (_, some err, c1) =>
      (httpError w err 500).map (fun w1 => { w := w1, cache := c1, invoked := [req] })
    | some (resp, none, c1) =>
      (writeResponse w resp).map (fun w1 => { w := w1, cache := c1, invoked := [req] })


/-! ## Reading decimal digits back -/

/-- Value of a decimal digit character. -/
def digitVal (c : Char) : Nat := c.toNat - 48

/-- Value of a string of decimal digits. -/
def parseDigits (cs : List Char) : Nat := cs.foldl (fun a c => 10 * a + digitVal c) 0

/-! ## A concrete environment

The environment of the examples: a process whose local time zone is UTC, so that
`time.Now()` is formatted in UTC, and the result of `http.DetectContentType` on the
bodies that occur in the examples. -/

/-- Two decimal digits. -/
def pad2 (n : Int) : String :=
  (if n < 10 then "0" else "") ++ formatInt n

/-- Four decimal digits. -/
def pad4 (n : Int) : String :=
  (if n < 10 then "000" else if n < 100 then "00" else if n < 1000 then "0" else "") ++
    formatInt n

/-- Year, month and day of the given day number (days since 1970-01-01). -/
def civilFromDays (days : Int) : Int × Int × Int :=
  let z := days + 719468
  let era := z / 146097
  let doe := z - era * 146097
  let yoe := (doe - doe / 1460 + doe / 36524 - doe / 146096) / 365
  let doy := doe - (365 * yoe + yoe / 4 - yoe / 100)
  let mp := (5 * doy + 2) / 153
  let d := doy - (153 * mp + 2) / 5 + 1
  let m := if mp < 10 then mp + 3 else mp - 9
  (if m ≤ 2 then yoe + era * 400 + 1 else yoe + era * 400, m, d)

/-- Abbreviated day names, Sunday first. -/
def dayNames : List String := ["Sun", "Mon", "Tue", "Wed", "Thu", "Fri", "Sat"]

/-- Abbreviated month names. -/
def monthNames : List String :=
  ["Jan", "Feb", "Mar", "Apr", "May", "Jun", "Jul", "Aug", "Sep", "Oct", "Nov", "Dec"]

/-- The layout `Mon, 02 Jan 2006 15:04:05 MST` for a time in UTC. -/
def formatRFC1123UTC (t : Int) : String :=
  let secs := Unix t
  let days := secs / 86400
  let rem := secs % 86400
  let ymd := civilFromDays days
  dayNames.getD ((days + 4) % 7).toNat "" ++ ", " ++ pad2 ymd.2.2 ++ " " ++
    monthNames.getD (ymd.2.1 - 1).toNat "" ++ " " ++ pad4 ymd.1 ++ " " ++
    pad2 (rem / 3600) ++ ":" ++ pad2 (rem % 3600 / 60) ++ ":" ++ pad2 (rem % 60) ++ " UTC"

/-- An environment: the local time zone is UTC, and a body is sniffed as
`text/plain; charset=utf-8`, which is what `http.DetectContentType` returns for the
bodies of the examples (the empty body and the ASCII texts `ok` and `no`). -/
def exampleEnv : Env :=
  { DetectContentType := fun _ => "text/plain; charset=utf-8",
    FormatRFC1123 := formatRFC1123UTC }

/-- A request `GET /`. -/
def exampleRequest : Request := { Method := "GET", URL := "/", Header := ∅, Body := [] }

/-- A request `POST /`. -/
def examplePost : Request := { Method := "POST", URL := "/", Header := ∅, Body := [1] }

/-- A handler that sets a `Date` header and writes the body `ok`. -/
def exampleHandler : Handler := fun _ =>
  [HandlerCall.headerAssign "Date" ["Mon, 02 Jan 2006 15:04:05 GMT"], HandlerCall.Write [111, 107]]

/-- The header map `exampleHandler` leaves in the recorder under `exampleEnv`. -/
def exampleHeader : Header :=
  ((∅ : Header).insert "Date" ["Mon, 02 Jan 2006 15:04:05 GMT"]).insert "Content-Type"
    ["text/plain; charset=utf-8"]

/-- A handler that sends nothing: it returns without a call on its writer. -/
def silentHandler : Handler := fun _ => []

/-- The instant 2006-01-02 15:04:05 UTC. -/
def exampleNow : Int := 1136214245 * Second

/-- A handler that answers 404 with a `Date` header and the body `no`. -/
def notFoundHandler : Handler := fun _ =>
  [HandlerCall.headerAssign "Date" ["Mon, 02 Jan 2006 15:04:05 GMT"],
    HandlerCall.WriteHeader 404, HandlerCall.Write [110, 111]]

/-- A snapshot as `ServeHTTP` stores it. -/
def exampleSnapshot : response :=
  { code := 200,
    header := ((∅ : Header).insert "Content-Type" ["text/plain; charset=utf-8"]).insert
      "Cache-Control" ["max-age=60"],
    body := [111, 107] }

/-- A proxy with a TTL of one minute whose store holds `exampleSnapshot` for `GET /` in
the window of `exampleNow`. -/
def warmProxy : Proxy :=
  { ttl := 60 * Second, next := exampleHandler,
    cache := { MaxEntries := 8, ll := [("GET-/-1136214240", exampleSnapshot)] },
    stored := by
      intro e he
      rw [List.mem_singleton.mp he]
      rfl }

/-- A handler that sets the status 200 and sends nothing else. -/
def explicitHandler : Handler := fun _ => [HandlerCall.WriteHeader 200]

/-! ## Decimal formatting is injective -/

theorem digitVal_digitChar {d : Nat} (h : d < 10) : digitVal (digitChar d) = d := by
  interval_cases d <;> rfl

theorem digitChar_ne_dash {d : Nat} (h : d < 10) : digitChar d ≠ '-' := by
  interval_cases d <;> decide

theorem parseDigits_append (xs : List Char) (c : Char) :
    parseDigits (xs ++ [c]) = 10 * parseDigits xs + digitVal c := by
  simp [parseDigits, List.foldl_append]

theorem parseDigits_formatDigits : ∀ (fuel n : Nat), n < fuel →
    parseDigits (formatDigits fuel n) = n
  | 0, _, h => absurd h (Nat.not_lt_zero _)
  | fuel + 1, n, h => by
    unfold formatDigits
    split
    · rename_i hn
      simp [parseDigits, digitVal_digitChar hn]
    · rename_i hn
      have h1 : n / 10 < fuel := by omega
      rw [parseDigits_append, parseDigits_formatDigits fuel (n / 10) h1,
        digitVal_digitChar (Nat.mod_lt n (by decide))]
      omega

theorem dash_not_mem_formatDigits : ∀ (fuel n : Nat), '-' ∉ formatDigits fuel n
  | 0, _ => by simp [formatDigits]
  | fuel + 1, n => by
    unfold formatDigits
    split
    · rename_i hn
      simpa using (digitChar_ne_dash hn).symm
    · have h2 := dash_not_mem_formatDigits fuel (n / 10)
      have h3 := digitChar_ne_dash (Nat.mod_lt n (show 0 < 10 by decide))
      simp only [List.mem_append, List.mem_singleton, not_or]
      exact ⟨h2, fun h => h3 h.symm⟩

theorem formatNat_injective {a b : Nat} (h : formatNat a = formatNat b) : a = b := by
  have ha := parseDigits_formatDigits (a + 1) a (Nat.lt_succ_self a)
  have hb := parseDigits_formatDigits (b + 1) b (Nat.lt_succ_self b)
  unfold formatNat at h
  rw [h] at ha
  omega

theorem dash_not_mem_formatNat (n : Nat) : '-' ∉ formatNat n :=
  dash_not_mem_formatDigits (n + 1) n

theorem formatInt_injective {a b : Int} (h : formatInt a = formatInt b) : a = b := by
  have h := congrArg String.data h
  cases a with
  | ofNat x =>
    cases b with
    | ofNat y =>
      simp only [formatInt] at h
      rw [formatNat_injective h]
    | negSucc y =>
      simp only [formatInt] at h
      exact absurd (h ▸ List.mem_cons_self _ _) (dash_not_mem_formatNat x)
  | negSucc x =>
    cases b with
    | ofNat y =>
      simp only [formatInt] at h
      exact absurd (h.symm ▸ List.mem_cons_self _ _) (dash_not_mem_formatNat y)
    | negSucc y =>
      simp only [formatInt, List.cons.injEq, true_and] at h
      have := formatNat_injective h
      have h2 : x = y := by omega
      rw [h2]

theorem dash_not_mem_formatInt {b : Int} (h : 0 ≤ b) : '-' ∉ (formatInt b).data := by
  cases b with
  | ofNat x => simpa [formatInt] using dash_not_mem_formatNat x
  | negSucc x => exact absurd h (by simp [Int.negSucc_lt_zero])

theorem keyOf_data (m u : String) (b : Int) :
    (keyOf m u b).data = m.data ++ '-' :: (u.data ++ '-' :: (formatInt b).data) := by
  simp [keyOf, String.data_append]


/-! ## Time windows -/

theorem Truncate_of_pos {t d : Int} (hd : 0 < d) :
    Truncate t d = (t + unixToInternal * Second) / d * d - unixToInternal * Second := by
  have h := Int.ediv_add_emod (t + unixToInternal * Second) d
  have hc : d * ((t + unixToInternal * Second) / d) = (t + unixToInternal * Second) / d * d :=
    Int.mul_comm _ _
  unfold Truncate
  rw [if_neg (not_le.mpr hd)]
  omega

theorem Unix_Truncate_of_pos {t d : Int} (hd : 0 < d) :
    Unix (Truncate t d) = (t + unixToInternal * Second) / d * d / Second - unixToInternal := by
  rw [Truncate_of_pos hd]
  unfold Unix
  have hS : Second ≠ 0 := by decide
  rw [sub_eq_add_neg, ← Int.neg_mul, Int.add_mul_ediv_right _ _ hS]
  ring

theorem mul_ediv_Second_lt {k1 k2 d : Int} (hd : Second ≤ d) (hk : k1 < k2) :
    k1 * d / Second < k2 * d / Second := by
  have hS : (0 : Int) < Second := by decide
  have h1 : k1 * d + Second ≤ k2 * d := by nlinarith
  have h2 : (k1 * d + Second) / Second ≤ k2 * d / Second := Int.ediv_le_ediv hS h1
  have h3 : (k1 * d + Second) / Second = k1 * d / Second + 1 := by
    have := Int.add_mul_ediv_right (k1 * d) 1 (ne_of_gt hS)
    simpa using this
  omega

theorem Unix_Truncate_ne {t1 t2 d : Int} (hd : Second ≤ d)
    (h : Truncate t1 d ≠ Truncate t2 d) : Unix (Truncate t1 d) ≠ Unix (Truncate t2 d) := by
  have hS : (0 : Int) < Second := by decide
  have hd0 : 0 < d := lt_of_lt_of_le hS hd
  rw [Truncate_of_pos hd0, Truncate_of_pos hd0] at h
  rw [Unix_Truncate_of_pos hd0, Unix_Truncate_of_pos hd0]
  have hk : (t1 + unixToInternal * Second) / d ≠ (t2 + unixToInternal * Second) / d := by
    intro e
    exact h (by rw [e])
  rcases lt_or_gt_of_ne hk with hlt | hgt
  · have := mul_ediv_Second_lt hd hlt
    omega
  · have := mul_ediv_Second_lt hd hgt
    omega

theorem Truncate_add_self {t d : Int} (hd : 0 < d) : Truncate (t + d) d = Truncate t d + d := by
  rw [Truncate_of_pos hd, Truncate_of_pos hd]
  have h : t + d + unixToInternal * Second = (t + unixToInternal * Second) + 1 * d := by ring
  rw [h, Int.add_mul_ediv_right _ _ (ne_of_gt hd)]
  ring

theorem keyOf_bucket_injective {m u : String} {b1 b2 : Int}
    (h : keyOf m u b1 = keyOf m u b2) : b1 = b2 := by
  have h := congrArg String.data h
  rw [keyOf_data, keyOf_data] at h
  have h1 := List.append_cancel_left h
  simp only [List.cons.injEq, true_and] at h1
  have h2 := List.append_cancel_left h1
  simp only [List.cons.injEq, true_and] at h2
  exact formatInt_injective (String.ext h2)

/-- C5. The key derived by `ServeHTTP` depends on the request only through its method
and URL, and on the proxy only through its TTL: two requests with the same method
and URL (whatever their headers and bodies), observed at two times that truncate to
the same multiple of the positive TTL, get the same key. -/
theorem cacheKey_stable (p1 p2 : Proxy) (r1 r2 : Request) (t1 t2 : Int)
    (hm : r1.Method = r2.Method) (hu : r1.URL = r2.URL) (httl : p1.ttl = p2.ttl)
    (_hpos : 0 < p1.ttl) (hwin : Truncate t1 p1.ttl = Truncate t2 p1.ttl) :
    cacheKey r1 t1 p1.ttl = cacheKey r2 t2 p2.ttl := by
  unfold cacheKey
  rw [← httl, hm, hu, hwin]

/-- C6, as stated, fails: with a TTL of half a second the times 0 and 0.5s fall in
different windows (the second is the first plus the TTL), yet the two keys are equal. -/
theorem subsecond_window_counterexample :
    (0 : Int) < 500000000 ∧
    Truncate 0 500000000 ≠ Truncate (0 + 500000000) 500000000 ∧
    cacheKey ⟨"GET", "/", ∅, []⟩ 0 500000000 =
      cacheKey ⟨"GET", "/", ∅, []⟩ (0 + 500000000) 500000000 := by
  refine ⟨by decide, by decide, by decide⟩

/-- C6, amended. For a TTL of at least one second, two requests with the same method and
URL observed at times that fall in different windows get different keys; in
particular the key at time `T` differs from the key at time `T + ttl`. -/
theorem cacheKey_rollover (d : Int) (hd : Second ≤ d) (r1 r2 : Request)
    (hm : r1.Method = r2.Method) (hu : r1.URL = r2.URL) :
    (∀ t1 t2 : Int, Truncate t1 d ≠ Truncate t2 d → cacheKey r1 t1 d ≠ cacheKey r2 t2 d) ∧
    (∀ T : Int, cacheKey r1 T d ≠ cacheKey r2 (T + d) d) := by
  have hS : (0 : Int) < Second := by decide
  have hd0 : 0 < d := lt_of_lt_of_le hS hd
  have main : ∀ t1 t2 : Int, Truncate t1 d ≠ Truncate t2 d →
      cacheKey r1 t1 d ≠ cacheKey r2 t2 d := by
    intro t1 t2 hne hk
    unfold cacheKey at hk
    rw [hm, hu] at hk
    exact Unix_Truncate_ne hd hne (keyOf_bucket_injective hk)
  refine ⟨main, fun T => main T (T + d) ?_⟩
  rw [Truncate_add_self hd0]
  omega

theorem cacheKey_rollover_witness :
    Second ≤ 60 * Second ∧
    Truncate exampleNow (60 * Second) ≠ Truncate (exampleNow + 55 * Second) (60 * Second) ∧
    cacheKey exampleRequest exampleNow (60 * Second) ≠
      cacheKey exampleRequest (exampleNow + 55 * Second) (60 * Second) ∧
    cacheKey exampleRequest exampleNow (60 * Second) ≠
      cacheKey exampleRequest (exampleNow + 60 * Second) (60 * Second) :=
  ⟨by decide, by decide,
    (cacheKey_rollover (60 * Second) (by decide) exampleRequest exampleRequest rfl rfl).1
      exampleNow (exampleNow + 55 * Second) (by decide),
    (cacheKey_rollover (60 * Second) (by decide) exampleRequest exampleRequest rfl rfl).2
      exampleNow⟩

theorem cacheKey_stable_witness :
    Truncate exampleNow (60 * Second) = Truncate (exampleNow + 54 * Second) (60 * Second) ∧
    cacheKey exampleRequest exampleNow (60 * Second) =
      cacheKey { exampleRequest with Header := exampleHeader, Body := [1, 2] }
        (exampleNow + 54 * Second) (60 * Second) :=
  ⟨by decide,
    cacheKey_stable (New (60 * Second) 8 exampleHandler) (New (60 * Second) 3 silentHandler)
      exampleRequest { exampleRequest with Header := exampleHeader, Body := [1, 2] }
      exampleNow (exampleNow + 54 * Second) rfl rfl rfl (by decide) (by decide)⟩

/-! ## Key uniqueness -/

theorem split_at_first {α : Type} {x : α} : ∀ (xs1 xs2 : List α) {ys1 ys2 : List α},
    x ∉ xs1 → x ∉ xs2 → xs1 ++ x :: ys1 = xs2 ++ x :: ys2 → xs1 = xs2 ∧ ys1 = ys2
  | [], [], _, _, _, _, h => by simpa using h
  | [], b :: xs2, _, _, _, h2, h => by
    simp only [List.nil_append, List.cons_append, List.cons.injEq] at h
    exact absurd (h.1 ▸ List.mem_cons_self _ _) h2
  | a :: xs1, [], _, _, h1, _, h => by
    simp only [List.nil_append, List.cons_append, List.cons.injEq] at h
    exact absurd (h.1 ▸ List.mem_cons_self _ _) h1
  | a :: xs1, b :: xs2, _, _, h1, h2, h => by
    simp only [List.cons_append, List.cons.injEq] at h
    have ih := split_at_first xs1 xs2 (fun hx => h1 (List.mem_cons_of_mem _ hx))
      (fun hx => h2 (List.mem_cons_of_mem _ hx)) h.2
    exact ⟨by rw [h.1, ih.1], ih.2⟩

theorem split_at_last {α : Type} {x : α} {xs1 xs2 ys1 ys2 : List α}
    (h1 : x ∉ ys1) (h2 : x ∉ ys2) (h : xs1 ++ x :: ys1 = xs2 ++ x :: ys2) :
    xs1 = xs2 ∧ ys1 = ys2 := by
  have hr := congrArg List.reverse h
  simp only [List.reverse_append, List.reverse_cons, List.append_assoc,
    List.singleton_append] at hr
  have := split_at_first ys1.reverse ys2.reverse (by simpa using h1) (by simpa using h2) hr
  exact ⟨List.reverse_injective this.2, List.reverse_injective this.1⟩

/-- C8, as stated, fails: the separator `-` may occur in a method, and the sign of a
negative bucket is again a `-`. Two different (method, URL) pairs, and two different
(URL, bucket) pairs, give the same key. -/
theorem keyOf_collision_counterexample :
    (keyOf "GET-a" "b://h/" 0 = keyOf "GET" "a-b://h/" 0 ∧ "GET-a" ≠ "GET") ∧
    (keyOf "GET" "/a" (-5) = keyOf "GET" "/a-" 5 ∧ (-5 : Int) ≠ 5) := by
  refine ⟨⟨by decide, by decide⟩, by decide, by decide⟩

/-- C8, amended. For methods that do not contain the character `-` and non-negative
buckets the key determines the method, the URL and the bucket. -/
theorem keyOf_injective (m1 m2 u1 u2 : String) (b1 b2 : Int)
    (hm1 : '-' ∉ m1.data) (hm2 : '-' ∉ m2.data) (hb1 : 0 ≤ b1) (hb2 : 0 ≤ b2)
    (h : keyOf m1 u1 b1 = keyOf m2 u2 b2) : m1 = m2 ∧ u1 = u2 ∧ b1 = b2 := by
  have h := congrArg String.data h
  rw [keyOf_data, keyOf_data] at h
  obtain ⟨hm, hrest⟩ := split_at_first m1.data m2.data hm1 hm2 h
  obtain ⟨hu, hb⟩ := split_at_last (dash_not_mem_formatInt hb1) (dash_not_mem_formatInt hb2) hrest
  exact ⟨String.ext hm, String.ext hu, formatInt_injective (String.ext hb)⟩

theorem keyOf_injective_witness :
    '-' ∉ "GET".data ∧ (0 : Int) ≤ 1136214240 ∧
    (keyOf "GET" "/a-b" 1136214240 = keyOf "GET" "/a-b" 1136214240 →
      ("GET" : String) = "GET" ∧ ("/a-b" : String) = "/a-b" ∧ (1136214240 : Int) = 1136214240) :=
  ⟨by decide, by decide,
    keyOf_injective "GET" "GET" "/a-b" "/a-b" 1136214240 1136214240 (by decide) (by decide)
      (by decide) (by decide)⟩

/-! ## The cache -/

theorem Cache.Get_of_lookup_none {c : Cache} {key : String} (h : c.lookup key = none) :
    c.Get key = (none, c) := by
  unfold Cache.lookup at h
  unfold Cache.Get
  cases hf : c.ll.find? (fun e => e.1 = key) with
  | none => rfl
  | some e => rw [hf] at h; simp at h

theorem find?_moveToFront {l : List (String × response)} {key : String}
    {e : String × response} (hf : l.find? (fun e => e.1 = key) = some e) (k : String) :
    (e :: l.eraseP (fun e => e.1 = key)).find? (fun e => e.1 = k) =
      l.find? (fun e => e.1 = k) := by
  induction l with
  | nil => simp at hf
  | cons a l ih =>
    by_cases ha : a.1 = key
    · have hae : a = e := by simpa [List.find?, ha] using hf
      subst hae
      simp [List.eraseP_cons, ha]
    · have hf1 : l.find? (fun e => e.1 = key) = some e := by
        simpa [List.find?, ha] using hf
      have hek : e.1 = key := by simpa using List.find?_some hf1
      have ih1 := ih hf1
      by_cases hk : a.1 = k
      · have hne : ¬ e.1 = k := by
          intro h
          exact ha (by rw [hk, ← h, hek])
        have hkk : ¬ k = key := fun h => ha (hk.trans h)
        simp [List.eraseP_cons, ha, List.find?, hk, hne, hkk]
      · by_cases hke : e.1 = k
        · rw [List.find?_cons_of_pos _ (by simpa using hke)] at ih1 ⊢
          simp [List.find?, hk, ← ih1]
        · rw [List.find?_cons_of_neg _ (by simpa using hke)] at ih1 ⊢
          simp [List.eraseP_cons, ha, List.find?, hk, ih1]

theorem perm_moveToFront {l : List (String × response)} {key : String}
    {e : String × response} (hf : l.find? (fun e => e.1 = key) = some e) :
    (e :: l.eraseP (fun e => e.1 = key)).Perm l := by
  induction l with
  | nil => simp at hf
  | cons a l ih =>
    by_cases ha : a.1 = key
    · have hae : a = e := by simpa [List.find?, ha] using hf
      subst hae
      simp [List.eraseP_cons, ha]
    · have hf1 : l.find? (fun e => e.1 = key) = some e := by
        simpa [List.find?, ha] using hf
      simp only [List.eraseP_cons, ha, decide_False, Bool.false_eq_true, if_false]
      exact (List.Perm.swap a e _).trans ((ih hf1).cons a)

/-- A hit of `Cache.Get` returns the stored value and keeps every binding. -/
theorem Cache.Get_of_lookup_some {c : Cache} {key : String} {s : response}
    (h : c.lookup key = some s) :
    (c.Get key).1 = some s ∧ (∀ k, (c.Get key).2.lookup k = c.lookup k) ∧
      (c.Get key).2.ll.Perm c.ll ∧ (c.Get key).2.MaxEntries = c.MaxEntries := by
  unfold Cache.lookup at h
  unfold Cache.Get
  cases hf : c.ll.find? (fun e => e.1 = key) with
  | none => rw [hf] at h; simp at h
  | some e =>
    rw [hf] at h
    simp only [Option.map_some', Option.some.injEq] at h
    refine ⟨by simp [h], fun k => ?_, perm_moveToFront hf, rfl⟩
    simp only [Cache.lookup]
    rw [find?_moveToFront hf k]

theorem Cache.lookup_Add_self_imp (c : Cache) (key : String) (v s : response)
    (h : (c.Add key v).lookup key = some s) : s = v := by
  unfold Cache.Add at h
  cases hf : c.ll.find? (fun e => e.1 = key) with
  | some e =>
    rw [hf] at h
    simp [Cache.lookup] at h
    exact h.symm
  | none =>
    rw [hf] at h
    simp only at h
    split at h
    · cases hl : c.ll with
      | nil => simp [Cache.RemoveOldest, Cache.lookup, hl] at h
      | cons a l =>
        simp [Cache.RemoveOldest, Cache.lookup, hl] at h
        exact h.symm
    · simp [Cache.lookup] at h
      exact h.symm

theorem Cache.lookup_Add_self (c : Cache) (key : String) (v : response)
    (hmax : 0 ≤ c.MaxEntries) : (c.Add key v).lookup key = some v := by
  unfold Cache.Add
  cases hf : c.ll.find? (fun e => e.1 = key) with
  | some e => simp [Cache.lookup]
  | none =>
    simp only
    split
    · rename_i hev
      cases hl : c.ll with
      | nil =>
        rw [hl] at hev
        simp at hev
        omega
      | cons a l => simp [Cache.RemoveOldest, Cache.lookup]
    · simp [Cache.lookup]

/-! ## Replaying a snapshot -/

theorem lookup_foldl_insert : ∀ (l : List (Sigma (fun _ : String => List String)))
    (_ : l.NodupKeys) (m : Header) (k : String),
    (l.foldl (fun m e => m.insert e.1 e.2) m).lookup k =
      match l.dlookup k with
      | some v => some v
      | none => m.lookup k
  | [], _, m, k => by simp
  | e :: l, hnd, m, k => by
    have hnd1 := List.nodupKeys_cons.mp hnd
    rw [List.foldl_cons, lookup_foldl_insert l hnd1.2 (m.insert e.1 e.2) k]
    by_cases hk : k = e.1
    · subst hk
      have hnone : l.dlookup e.1 = none := by
        rw [List.dlookup_eq_none]
        exact hnd1.1
      obtain ⟨e1, e2⟩ := e
      simp only at hnone
      simp [hnone, List.dlookup_cons_eq]
    · have hk1 : e.1 ≠ k := fun h => hk h.symm
      rw [List.dlookup_cons_ne l e hk, AList.lookup_insert_ne hk]

theorem Cache.mem_of_lookup {c : Cache} {key : String} {s : response}
    (h : c.lookup key = some s) : ∃ e ∈ c.ll, e.2 = s := by
  unfold Cache.lookup at h
  cases hf : c.ll.find? (fun e => e.1 = key) with
  | none => rw [hf] at h; simp at h
  | some e =>
    rw [hf] at h
    simp only [Option.map_some', Option.some.injEq] at h
    exact ⟨e, List.mem_of_find?_eq_some hf, h⟩

theorem Cache.mem_Add {c : Cache} {key : String} {v : response} {e : String × response}
    (h : e ∈ (c.Add key v).ll) : e = (key, v) ∨ e ∈ c.ll := by
  unfold Cache.Add at h
  cases hf : c.ll.find? (fun e => e.1 = key) with
  | some e1 =>
    rw [hf] at h
    simp only [List.mem_cons] at h
    rcases h with h | h
    · exact Or.inl h
    · exact Or.inr (List.mem_of_mem_eraseP h)
  | none =>
    rw [hf] at h
    simp only at h
    split at h
    · have h1 := List.dropLast_subset _ h
      simpa using h1
    · simpa using h

theorem validStatusCode_200 {c : Int} (h : c = 200) : validStatusCode c = true := by
  subst h
  decide

/-- The writer after `writeResponse` when `WriteHeader` accepts the code: the entries
of the snapshot over those the writer already had, then the two calls. -/
theorem writeResponse_of_valid (w : ResponseWriter) (r : response)
    (h : validStatusCode r.code = true) :
    ∃ w1, writeResponse w r = some w1 ∧
      (∀ k, w1.header.lookup k =
        match r.header.lookup k with
        | some v => some v
        | none => w.header.lookup k) ∧
      w1.calls = w.calls ++
        [WriterCall.WriteHeader r.code w1.header, WriterCall.Write r.body] := by
  refine ⟨{ header := r.header.entries.foldl (fun m e => m.insert e.1 e.2) w.header,
            calls := w.calls ++
              [WriterCall.WriteHeader r.code
                (r.header.entries.foldl (fun m e => m.insert e.1 e.2) w.header),
               WriterCall.Write r.body] }, ?_, ?_, rfl⟩
  · unfold writeResponse ResponseWriter.WriteHeader
    simp [h, ResponseWriter.Write]
  · intro k
    exact lookup_foldl_insert _ r.header.nodupKeys w.header k

theorem lookup_of_empty (H W : Header) (hw : W = ∅) (k : String) :
    (match H.lookup k with
      | some v => some v
      | none => W.lookup k) = H.lookup k := by
  subst hw
  cases H.lookup k <;> simp

/-- A writer that has not written its header panics in `writeResponse` on the code 0. -/
theorem writeResponse_code_zero (h : Header) (H : Header) (B : List UInt8) :
    writeResponse { header := h, calls := [] } { code := 0, header := H, body := B } = none :=
  rfl

/-! ## `ServeHTTP` -/

theorem ServeHTTP_of_hit (env : Env) (p : Proxy) (w : ResponseWriter) (req : Request)
    (now1 now2 : Int) (s : response)
    (h : p.cache.lookup (cacheKey req now1 p.ttl) = some s) :
    ServeHTTP env p w req now1 now2 =
      (writeResponse w s).map (fun w1 =>
        { w := w1, cache := (p.cache.Get (cacheKey req now1 p.ttl)).2, invoked := [] }) := by
  have hg := (Cache.Get_of_lookup_some h).1
  unfold ServeHTTP
  dsimp only
  rcases hG : p.cache.Get (cacheKey req now1 p.ttl) with ⟨r, c⟩
  rw [hG] at hg
  simp only at hg
  subst hg
  rfl

theorem ServeHTTP_of_miss (env : Env) (p : Proxy) (w : ResponseWriter) (req : Request)
    (now1 now2 : Int) (h : p.cache.lookup (cacheKey req now1 p.ttl) = none) :
    ServeHTTP env p w req now1 now2 =
      match snapshot env p.next req with
      | none => none
      | some r =>
        if cacheable r req then
          (writeResponse w { r with header := rewriteHeader env p.ttl now2 r.header }).map
            (fun w1 =>
              { w := w1,
                cache := p.cache.Add (cacheKey req now1 p.ttl)
                  { r with header := rewriteHeader env p.ttl now2 r.header },
                invoked := [req] })
        else (writeResponse w r).map (fun w1 => { w := w1, cache := p.cache, invoked := [req] }) := by
  unfold ServeHTTP
  dsimp only
  rw [Cache.Get_of_lookup_none h]
  simp only [producer]
  cases snapshot env p.next req with
  | none => rfl
  | some r =>
    cases hc : cacheable r req <;> simp [hc]

theorem not_cacheable_of_gate {r : response} {req : Request}
    (h : r.code ≠ 200 ∨ ¬ (req.Method = "GET" ∨ req.Method = "HEAD" ∨ req.Method = "OPTIONS")) :
    cacheable r req = false := by
  unfold cacheable
  rcases h with h200 | hm
  · simp [h200]
  · have h1 : ¬ req.Method = "GET" := fun h => hm (Or.inl h)
    have h2 : ¬ req.Method = "HEAD" := fun h => hm (Or.inr (Or.inl h))
    have h3 : ¬ req.Method = "OPTIONS" := fun h => hm (Or.inr (Or.inr h))
    simp [h1, h2, h3]

theorem code_of_cacheable {r : response} {req : Request} (h : cacheable r req = true) :
    r.code = 200 := by
  unfold cacheable at h
  simp only [Bool.and_eq_true, decide_eq_true_eq] at h
  exact h.1

/-- The invariant of the store is kept: after `ServeHTTP` every stored snapshot has
status 200. -/
theorem ServeHTTP_stored (env : Env) (p : Proxy) (w : ResponseWriter) (req : Request)
    (now1 now2 : Int) (out : Outcome) (h : ServeHTTP env p w req now1 now2 = some out) :
    ∀ e ∈ out.cache.ll, e.2.code = 200 := by
  cases hl : p.cache.lookup (cacheKey req now1 p.ttl) with
  | some s =>
    rw [ServeHTTP_of_hit env p w req now1 now2 s hl] at h
    cases hw : writeResponse w s with
    | none => rw [hw] at h; simp at h
    | some w1 =>
      rw [hw] at h
      simp only [Option.map_some', Option.some.injEq] at h
      subst h
      intro e he
      exact p.stored e ((Cache.Get_of_lookup_some hl).2.2.1.subset he)
  | none =>
    rw [ServeHTTP_of_miss env p w req now1 now2 hl] at h
    cases hs : snapshot env p.next req with
    | none => rw [hs] at h; simp at h
    | some r =>
      rw [hs] at h
      simp only at h
      by_cases hc : cacheable r req = true
      · simp only [hc, if_true] at h
        cases hw : writeResponse w { r with header := rewriteHeader env p.ttl now2 r.header } with
        | none => rw [hw] at h; simp at h
        | some w1 =>
          rw [hw] at h
          simp only [Option.map_some', Option.some.injEq] at h
          subst h
          intro e he
          rcases Cache.mem_Add he with h1 | h1
          · rw [h1]
            exact code_of_cacheable hc
          · exact p.stored e h1
      · simp only [hc, Bool.false_eq_true, if_false] at h
        cases hw : writeResponse w r with
        | none => rw [hw] at h; simp at h
        | some w1 =>
          rw [hw] at h
          simp only [Option.map_some', Option.some.injEq] at h
          subst h
          exact p.stored

/-- C1. On a cache hit with stored snapshot `s`, `ServeHTTP` returns without invoking the
wrapped handler, every key of the store is still bound to the same snapshot, and
the caller's writer receives the header entries of `s`, then `WriteHeader(s.code)`,
then `Write(s.body)`; a writer whose header map was empty ends up with exactly the
header map of `s`. -/
theorem ServeHTTP_cache_hit (env : Env) (p : Proxy) (w : ResponseWriter) (req : Request)
    (now1 now2 : Int) (s : response)
    (h : p.cache.lookup (cacheKey req now1 p.ttl) = some s) :
    ∃ out, ServeHTTP env p w req now1 now2 = some out ∧ out.invoked = [] ∧
      out.cache.lookup (cacheKey req now1 p.ttl) = some s ∧
      (∀ k, out.cache.lookup k = p.cache.lookup k) ∧
      (∀ k, out.w.header.lookup k =
        match s.header.lookup k with
        | some v => some v
        | none => w.header.lookup k) ∧
      out.w.calls = w.calls ++
        [WriterCall.WriteHeader s.code out.w.header, WriterCall.Write s.body] ∧
      (w.header = ∅ → ∀ k, out.w.header.lookup k = s.header.lookup k) := by
  obtain ⟨e, he, hes⟩ := Cache.mem_of_lookup h
  have hcode : s.code = 200 := hes ▸ p.stored e he
  obtain ⟨w1, hw1, hhdr, hcalls⟩ := writeResponse_of_valid w s (validStatusCode_200 hcode)
  refine ⟨{ w := w1, cache := (p.cache.Get (cacheKey req now1 p.ttl)).2, invoked := [] },
    ?_, rfl, ?_, ?_, hhdr, hcalls, ?_⟩
  · rw [ServeHTTP_of_hit env p w req now1 now2 s h, hw1]
    rfl
  · rw [(Cache.Get_of_lookup_some h).2.1]
    exact h
  · exact (Cache.Get_of_lookup_some h).2.1
  · intro hw k
    exact (hhdr k).trans (lookup_of_empty s.header w.header hw k)

/-- C2. When the request method is not GET, HEAD or OPTIONS, or the handler's recorded
status is not 200, `ServeHTTP` adds nothing to the store: whenever it returns, the
store holds the same entries, bound to the same snapshots, as before. It does
return on a hit, and on a miss when the recorded status is one `WriteHeader`
accepts. -/
theorem ServeHTTP_cache_safety_gate (env : Env) (p : Proxy) (w : ResponseWriter)
    (req : Request) (now1 now2 : Int)
    (hgate : (∀ r, snapshot env p.next req = some r → r.code ≠ 200) ∨
      ¬ (req.Method = "GET" ∨ req.Method = "HEAD" ∨ req.Method = "OPTIONS")) :
    (((∃ s, p.cache.lookup (cacheKey req now1 p.ttl) = some s) ∨
        (∃ r, snapshot env p.next req = some r ∧ validStatusCode r.code = true)) →
      ∃ out, ServeHTTP env p w req now1 now2 = some out) ∧
    ∀ out, ServeHTTP env p w req now1 now2 = some out →
      (∀ k, out.cache.lookup k = p.cache.lookup k) ∧ out.cache.ll.Perm p.cache.ll ∧
        out.cache.MaxEntries = p.cache.MaxEntries := by
  cases hl : p.cache.lookup (cacheKey req now1 p.ttl) with
  | some s =>
    refine ⟨fun _ => ?_, ?_⟩
    · obtain ⟨out, hout, _⟩ := ServeHTTP_cache_hit env p w req now1 now2 s hl
      exact ⟨out, hout⟩
    · intro out hout
      rw [ServeHTTP_of_hit env p w req now1 now2 s hl] at hout
      cases hw : writeResponse w s with
      | none => rw [hw] at hout; simp at hout
      | some w1 =>
        rw [hw] at hout
        simp only [Option.map_some', Option.some.injEq] at hout
        subst hout
        exact (Cache.Get_of_lookup_some hl).2
  | none =>
    rw [ServeHTTP_of_miss env p w req now1 now2 hl]
    cases hs : snapshot env p.next req with
    | none => simp
    | some r =>
      have hnc : cacheable r req = false := by
        rcases hgate with h200 | hm
        · exact not_cacheable_of_gate (Or.inl (h200 r hs))
        · exact not_cacheable_of_gate (Or.inr hm)
      simp only [hnc, Bool.false_eq_true, if_false]
      refine ⟨?_, ?_⟩
      · intro hex
        rcases hex with ⟨s, hs1⟩ | ⟨r1, hr1, hv⟩
        · simp at hs1
        · simp only [Option.some.injEq] at hr1
          subst hr1
          obtain ⟨w1, hw1, _⟩ := writeResponse_of_valid w r hv
          exact ⟨_, by rw [hw1]; rfl⟩
      · intro out hout
        cases hw : writeResponse w r with
        | none => rw [hw] at hout; simp at hout
        | some w1 =>
          rw [hw] at hout
          simp only [Option.map_some', Option.some.injEq] at hout
          subst hout
          exact ⟨fun _ => rfl, List.Perm.refl _, rfl⟩

/-- A miss whose handler run yields a status `c` that `WriteHeader` accepts, a header
map `H` and a body `B`, with `c` other than 200 or a method other than GET, HEAD and
OPTIONS, is answered with exactly that: the handler is invoked once, the writer
(whose header map was empty) ends up with the header map `H`, and receives
`WriteHeader(c)` then `Write(B)`. -/
theorem ServeHTTP_passthrough_accepted_status (env : Env) (p : Proxy) (w : ResponseWriter)
    (req : Request) (now1 now2 : Int) (c : Int) (H : Header) (B : List UInt8)
    (hmiss : p.cache.lookup (cacheKey req now1 p.ttl) = none)
    (hrun : snapshot env p.next req = some { code := c, header := H, body := B })
    (hunc : c ≠ 200 ∨ ¬ (req.Method = "GET" ∨ req.Method = "HEAD" ∨ req.Method = "OPTIONS"))
    (hvalid : validStatusCode c = true) (hw : w.header = ∅) :
    ∃ out, ServeHTTP env p w req now1 now2 = some out ∧ out.invoked = [req] ∧
      (∀ k, out.w.header.lookup k = H.lookup k) ∧
      out.w.calls = w.calls ++ [WriterCall.WriteHeader c out.w.header, WriterCall.Write B] ∧
      out.cache = p.cache := by
  have hnc : cacheable { code := c, header := H, body := B } req = false :=
    not_cacheable_of_gate hunc
  obtain ⟨w1, hw1, hhdr, hcalls⟩ :=
    writeResponse_of_valid w { code := c, header := H, body := B } hvalid
  refine ⟨{ w := w1, cache := p.cache, invoked := [req] }, ?_, rfl, ?_, hcalls, rfl⟩
  · rw [ServeHTTP_of_miss env p w req now1 now2 hmiss, hrun]
    simp [hnc, hw1]
  · intro k
    exact (hhdr k).trans (lookup_of_empty H w.header hw k)

/-! ## The header rewrite -/

theorem secondsInt_whole (n : Int) : secondsInt (n * Second) = n := by
  have h1 : Int.tdiv (n * Second) Second = n := Int.mul_tdiv_cancel n (by decide)
  have h2 : Int.tmod (n * Second) Second = 0 := Int.mul_tmod_left n Second
  have h3 : (Float64.ofInt 0).div (Float64.ofInt 1000000000) = { mant := 0, exp := 0 } :=
    rfl
  unfold secondsInt Seconds
  simp only [h1, h2, h3]
  by_cases hn : n = 0
  · subst hn
    decide
  · simp [Float64.add, Float64.ofInt, hn, Float64.toInt]

/-- The rounding of `Duration.Seconds` is modelled: a duration of 16777216.999999999
seconds has `int(d.Seconds())` equal to 16777217. -/
theorem secondsInt_rounds_up : secondsInt 16777216999999999 = 16777217 := by decide

theorem canonical_CacheControl : CanonicalMIMEHeaderKey "Cache-Control" = "Cache-Control" := by
  decide

theorem canonical_Expires : CanonicalMIMEHeaderKey "Expires" = "Expires" := by decide

theorem canonical_XCacheDate : CanonicalMIMEHeaderKey "X-Cache-Date" = "X-Cache-Date" := by
  decide

theorem canonical_Date : CanonicalMIMEHeaderKey "Date" = "Date" := by decide

theorem rewriteHeader_eq (env : Env) (ttl now : Int) (H : Header) :
    rewriteHeader env ttl now H =
      ((((H.insert "Cache-Control" ["max-age=" ++ formatInt (secondsInt ttl)]).insert
        "Expires" [env.FormatRFC1123 (now + ttl)]).insert
        "X-Cache-Date" [H.Get "Date"]).erase "Date") := by
  have hget : Header.Get ((H.insert "Cache-Control"
      ["max-age=" ++ formatInt (secondsInt ttl)]).insert
      "Expires" [env.FormatRFC1123 (now + ttl)]) "Date" = H.Get "Date" := by
    unfold Header.Get
    rw [canonical_Date, AList.lookup_insert_ne (by decide), AList.lookup_insert_ne (by decide)]
  unfold rewriteHeader
  simp only [Header.Set, Header.Del, Add, canonical_CacheControl, canonical_Expires,
    canonical_XCacheDate, canonical_Date]
  rw [hget]

/-- The header map stored with a cached snapshot, key by key. -/
theorem rewriteHeader_lookup (env : Env) (ttl now : Int) (H : Header) :
    (rewriteHeader env ttl now H).lookup "Cache-Control" =
        some ["max-age=" ++ formatInt (secondsInt ttl)] ∧
      (rewriteHeader env ttl now H).lookup "Expires" = some [env.FormatRFC1123 (now + ttl)] ∧
      (rewriteHeader env ttl now H).lookup "X-Cache-Date" = some [H.Get "Date"] ∧
      (rewriteHeader env ttl now H).lookup "Date" = none ∧
      ∀ k, k ≠ "Cache-Control" → k ≠ "Expires" → k ≠ "X-Cache-Date" → k ≠ "Date" →
        (rewriteHeader env ttl now H).lookup k = H.lookup k := by
  rw [rewriteHeader_eq]
  refine ⟨?_, ?_, ?_, ?_, ?_⟩
  · rw [AList.lookup_erase_ne (by decide), AList.lookup_insert_ne (by decide),
      AList.lookup_insert_ne (by decide), AList.lookup_insert]
  · rw [AList.lookup_erase_ne (by decide), AList.lookup_insert_ne (by decide),
      AList.lookup_insert]
  · rw [AList.lookup_erase_ne (by decide), AList.lookup_insert]
  · rw [AList.lookup_erase]
  · intro k h1 h2 h3 h4
    rw [AList.lookup_erase_ne h4, AList.lookup_insert_ne h3, AList.lookup_insert_ne h2,
      AList.lookup_insert_ne h1]

/-- C3. A GET, HEAD or OPTIONS request that misses the store and whose handler run
yields status 200, header map `H` and body `B`, served by a proxy whose TTL is `n`
whole seconds: every snapshot found under the request's key afterwards has status
200, body `B`, `Cache-Control: max-age=n`, `Expires` the formatted time of the
observed now plus the TTL, `X-Cache-Date` the `Date` value of `H`, no `Date`, and
the entries of `H` under every other key; and such a snapshot is found whenever the
limit of the store is not negative. -/
theorem ServeHTTP_stores_rewritten (env : Env) (p : Proxy) (w : ResponseWriter)
    (req : Request) (now1 now2 n : Int) (H : Header) (B : List UInt8)
    (hmeth : req.Method = "GET" ∨ req.Method = "HEAD" ∨ req.Method = "OPTIONS")
    (hmiss : p.cache.lookup (cacheKey req now1 p.ttl) = none)
    (hrun : snapshot env p.next req = some { code := 200, header := H, body := B })
    (httl : p.ttl = n * Second) :
    ∃ out, ServeHTTP env p w req now1 now2 = some out ∧
      (0 ≤ p.cache.MaxEntries → ∃ s, out.cache.lookup (cacheKey req now1 p.ttl) = some s) ∧
      ∀ s, out.cache.lookup (cacheKey req now1 p.ttl) = some s →
        s.code = 200 ∧ s.body = B ∧
        s.header.lookup "Cache-Control" = some ["max-age=" ++ formatInt n] ∧
        s.header.lookup "Expires" = some [env.FormatRFC1123 (now2 + p.ttl)] ∧
        s.header.lookup "X-Cache-Date" = some [H.Get "Date"] ∧
        s.header.lookup "Date" = none ∧
        ∀ k, k ≠ "Cache-Control" → k ≠ "Expires" → k ≠ "X-Cache-Date" → k ≠ "Date" →
          s.header.lookup k = H.lookup k := by
  have hc : cacheable { code := 200, header := H, body := B } req = true := by
    unfold cacheable
    rcases hmeth with h | h | h <;> simp [h]
  obtain ⟨w1, hw1, _⟩ := writeResponse_of_valid w
    { code := 200, header := rewriteHeader env p.ttl now2 H, body := B }
    (validStatusCode_200 rfl)
  have hserve := ServeHTTP_of_miss env p w req now1 now2 hmiss
  rw [hrun] at hserve
  simp only [hc, if_true, hw1, Option.map_some'] at hserve
  refine ⟨_, hserve, ?_, ?_⟩
  · intro hmax
    exact ⟨_, Cache.lookup_Add_self p.cache _ _ hmax⟩
  · intro s hs
    have hsv := Cache.lookup_Add_self_imp p.cache _ _ s hs
    subst hsv
    have hl := rewriteHeader_lookup env p.ttl now2 H
    have hsec : secondsInt p.ttl = n := by rw [httl]; exact secondsInt_whole n
    rw [hsec] at hl
    exact ⟨rfl, rfl, hl⟩

/-- The example of C3 in the specification: `Date: Mon, 02 Jan 2006 15:04:05 GMT` and a
TTL of 60 seconds. -/
theorem ServeHTTP_stores_rewritten_witness :
    ∃ out s, ServeHTTP exampleEnv (New (60 * Second) 8 exampleHandler) ResponseWriter.fresh
        exampleRequest exampleNow exampleNow = some out ∧
      out.cache.lookup (cacheKey exampleRequest exampleNow (60 * Second)) = some s ∧
      s.code = 200 ∧ s.body = [111, 107] ∧
      s.header.lookup "Cache-Control" = some ["max-age=60"] ∧
      s.header.lookup "Expires" = some ["Mon, 02 Jan 2006 15:05:05 UTC"] ∧
      s.header.lookup "X-Cache-Date" = some ["Mon, 02 Jan 2006 15:04:05 GMT"] ∧
      s.header.lookup "Date" = none ∧
      s.header.lookup "Content-Type" = some ["text/plain; charset=utf-8"] := by
  obtain ⟨out, hout, hex, hall⟩ := ServeHTTP_stores_rewritten exampleEnv
    (New (60 * Second) 8 exampleHandler) ResponseWriter.fresh exampleRequest exampleNow
    exampleNow 60 exampleHeader [111, 107] (Or.inl rfl) rfl rfl rfl
  obtain ⟨s, hs⟩ := hex (by decide)
  obtain ⟨h1, h2, h3, h4, h5, h6, h7⟩ := hall s hs
  refine ⟨out, s, hout, hs, h1, h2, ?_, ?_, ?_, h6, ?_⟩
  · rw [h3]; decide
  · rw [h4]; decide
  · rw [h5]; decide
  · rw [h7 "Content-Type" (by decide) (by decide) (by decide) (by decide)]; decide

/-! ## Examples for the replay theorems -/

theorem ServeHTTP_cache_hit_witness :
    ∃ out, ServeHTTP exampleEnv warmProxy ResponseWriter.fresh exampleRequest exampleNow
        exampleNow = some out ∧ out.invoked = [] ∧
      out.cache.lookup "GET-/-1136214240" = some exampleSnapshot ∧
      out.w.calls = [WriterCall.WriteHeader 200 out.w.header, WriterCall.Write [111, 107]] ∧
      out.w.header.lookup "Cache-Control" = some ["max-age=60"] := by
  obtain ⟨out, hout, hinv, hkey, _, _, hcalls, hhdr⟩ := ServeHTTP_cache_hit exampleEnv
    warmProxy ResponseWriter.fresh exampleRequest exampleNow exampleNow exampleSnapshot rfl
  exact ⟨out, hout, hinv, hkey, hcalls, (hhdr rfl "Cache-Control").trans (by decide)⟩

theorem ServeHTTP_cache_safety_gate_witness :
    ∃ out, ServeHTTP exampleEnv warmProxy ResponseWriter.fresh examplePost exampleNow
        exampleNow = some out ∧
      out.cache.lookup "GET-/-1136214240" = some exampleSnapshot ∧
      out.cache.lookup (cacheKey examplePost exampleNow warmProxy.ttl) = none ∧
      out.cache.ll.length = 1 := by
  have h := ServeHTTP_cache_safety_gate exampleEnv warmProxy ResponseWriter.fresh examplePost
    exampleNow exampleNow (Or.inr (by decide))
  obtain ⟨out, hout⟩ := h.1 (Or.inr ⟨_, rfl, validStatusCode_200 rfl⟩)
  obtain ⟨hl, hp, _⟩ := h.2 out hout
  exact ⟨out, hout, (hl _).trans rfl, (hl _).trans rfl, hp.length_eq.trans rfl⟩

theorem ServeHTTP_passthrough_accepted_status_witness :
    ∃ out, ServeHTTP exampleEnv (New (60 * Second) 8 notFoundHandler) ResponseWriter.fresh
        exampleRequest exampleNow exampleNow = some out ∧
      out.w.header.lookup "Date" = some ["Mon, 02 Jan 2006 15:04:05 GMT"] ∧
      out.w.header.lookup "X-Cache-Date" = none ∧
      out.w.header.lookup "Cache-Control" = none ∧
      out.w.header.lookup "Expires" = none ∧
      out.w.calls = [WriterCall.WriteHeader 404 out.w.header, WriterCall.Write [110, 111]] := by
  obtain ⟨out, hout, _, hhdr, hcalls, _⟩ := ServeHTTP_passthrough_accepted_status exampleEnv
    (New (60 * Second) 8 notFoundHandler) ResponseWriter.fresh exampleRequest exampleNow
    exampleNow 404 ((∅ : Header).insert "Date" ["Mon, 02 Jan 2006 15:04:05 GMT"]) [110, 111]
    rfl rfl (Or.inl (by decide)) (by decide) rfl
  exact ⟨out, hout, (hhdr _).trans (by decide), (hhdr _).trans (by decide),
    (hhdr _).trans (by decide), (hhdr _).trans (by decide), hcalls⟩

/-! ## A handler that sends nothing -/

/-- C7 fails on the code: a handler that returns without a call on its writer answers
200 with an empty body, and for a POST the response is to be passed on as it is.
The recorder of the producer holds the status 0 instead, the request misses the
store, nothing is stored, and `writeResponse` panics in `w.WriteHeader(0)` on a
writer that has not written its header: no status and no body are delivered. The
same POST to a handler that sets the status 200 itself and sends nothing else is
passed on: the writer receives `WriteHeader(200)` and `Write` of the empty body,
and its header map is left as it was. -/
theorem ServeHTTP_silent_handler_not_delivered (env : Env) (ttl size : Int) (h : Header)
    (now1 now2 : Int) :
    (New ttl size silentHandler).cache.lookup (cacheKey examplePost now1 ttl) = none ∧
    snapshot env silentHandler examplePost = some { code := 0, header := ∅, body := [] } ∧
    cacheable { code := 0, header := ∅, body := [] } examplePost = false ∧
    ServeHTTP env (New ttl size silentHandler) { header := h, calls := [] } examplePost
      now1 now2 = none ∧
    ServeHTTP env (New ttl size explicitHandler) { header := h, calls := [] } examplePost
      now1 now2 =
      some { w := { header := h,
                    calls := [WriterCall.WriteHeader 200 h, WriterCall.Write []] },
             cache := Cache.New size, invoked := [examplePost] } :=
  ⟨rfl, rfl, rfl, rfl, rfl⟩

/-- C9 fails on the code: for a handler that returns without a call on its writer the
recorder still holds its zero value, so the snapshot has status code 0, not 200;
`WriteHeader` does not accept the code 0, so for every request `ServeHTTP` panics
on a writer that has not written its header. A handler that writes body bytes
without setting a status is recorded with status 200. -/
theorem snapshot_silent_handler_status (env : Env) (ttl size : Int) (h : Header)
    (req : Request) (now1 now2 : Int) (buf : List UInt8) :
    snapshot env silentHandler req = some { code := 0, header := ∅, body := [] } ∧
    validStatusCode 0 = false ∧
    ServeHTTP env (New ttl size silentHandler) { header := h, calls := [] } req now1 now2 =
      none ∧
    (snapshot env (fun _ => [HandlerCall.Write buf]) req).map (fun r => r.code) = some 200 :=
  ⟨rfl, rfl, rfl, rfl⟩

/-! ## Construction -/

/-- C10, as stated, fails: `New` with a zero TTL and a zero size, and `New` with a
negative TTL and a negative size, both return a proxy that serves a request with
the response of the wrapped handler. -/
theorem New_nonpositive_counterexample :
    (∃ out, ServeHTTP exampleEnv (New 0 0 exampleHandler) ResponseWriter.fresh exampleRequest
        exampleNow exampleNow = some out ∧ out.invoked = [exampleRequest] ∧
      out.w.calls = [WriterCall.WriteHeader 200 out.w.header, WriterCall.Write [111, 107]] ∧
      (out.cache.lookup (cacheKey exampleRequest exampleNow 0)).isSome = true) ∧
    (∃ out, ServeHTTP exampleEnv (New (-1) (-1) exampleHandler) ResponseWriter.fresh
        exampleRequest exampleNow exampleNow = some out ∧ out.invoked = [exampleRequest] ∧
      out.w.calls = [WriterCall.WriteHeader 200 out.w.header, WriterCall.Write [111, 107]]) :=
  ⟨⟨_, rfl, rfl, rfl, rfl⟩, ⟨_, rfl, rfl, rfl⟩⟩

/-- C10, amended. `New` validates nothing. For every TTL and every size, positive or
not, `ServeHTTP` on the proxy `New` returns answers a request whose handler run
records a status that `WriteHeader` accepts: the handler is invoked once and the
writer receives that status and the handler's body. With a TTL that is not
positive the time is not truncated, so the bucket of the key is the Unix second of
the clock reading. With a size that is not negative a cacheable response is stored
under the key of the request (the size 0 is no limit); with a negative size, and
for a response that is not cacheable, the store stays empty. -/
theorem New_serves_every_configuration (env : Env) (ttl size : Int) (next : Handler)
    (w : ResponseWriter) (req : Request) (now1 now2 : Int) (r : response)
    (hrun : snapshot env next req = some r) (hcode : validStatusCode r.code = true) :
    ∃ out, ServeHTTP env (New ttl size next) w req now1 now2 = some out ∧
      out.invoked = [req] ∧
      out.w.calls = w.calls ++
        [WriterCall.WriteHeader r.code out.w.header, WriterCall.Write r.body] ∧
      (ttl ≤ 0 → cacheKey req now1 ttl = keyOf req.Method req.URL (Unix now1)) ∧
      (cacheable r req = true → 0 ≤ size →
        out.cache.lookup (cacheKey req now1 ttl) =
          some { r with header := rewriteHeader env ttl now2 r.header }) ∧
      (size < 0 → out.cache.ll = []) ∧
      (cacheable r req = false → out.cache.ll = []) := by
  have hkey : ttl ≤ 0 → cacheKey req now1 ttl = keyOf req.Method req.URL (Unix now1) := by
    intro httl
    unfold cacheKey Truncate
    rw [if_pos httl]
  have hserve := ServeHTTP_of_miss env (New ttl size next) w req now1 now2 rfl
  have hnext : (New ttl size next).next = next := rfl
  have hcache : (New ttl size next).cache = Cache.New size := rfl
  have httl : (New ttl size next).ttl = ttl := rfl
  rw [hnext, hrun, hcache, httl] at hserve
  by_cases hc : cacheable r req = true
  · obtain ⟨w1, hw1, _, hcalls⟩ := writeResponse_of_valid w
      { r with header := rewriteHeader env ttl now2 r.header } hcode
    simp only [hc, if_true, hw1, Option.map_some'] at hserve
    refine ⟨_, hserve, rfl, hcalls, hkey, ?_, ?_, ?_⟩
    · intro _ hsize
      exact Cache.lookup_Add_self (Cache.New size) _ _ hsize
    · intro hsize
      show (Cache.Add (Cache.New size) _ _).ll = []
      unfold Cache.Add Cache.New
      have h1 : ¬ size = 0 := by omega
      have h2 : (1 : Int) > size := by omega
      simp [Cache.RemoveOldest, h1, h2]
    · intro hnc
      rw [hc] at hnc
      exact absurd hnc (by decide)
  · obtain ⟨w1, hw1, _, hcalls⟩ := writeResponse_of_valid w r hcode
    simp only [hc, Bool.false_eq_true, if_false, hw1, Option.map_some'] at hserve
    refine ⟨_, hserve, rfl, hcalls, hkey, ?_, ?_, ?_⟩
    · intro h1
      exact absurd h1 hc
    · intro _
      rfl
    · intro _
      rfl

theorem New_serves_every_configuration_witness :
    (∃ out, ServeHTTP exampleEnv (New 0 0 exampleHandler) ResponseWriter.fresh exampleRequest
        exampleNow exampleNow = some out ∧ out.invoked = [exampleRequest] ∧
      out.w.calls = [WriterCall.WriteHeader 200 out.w.header, WriterCall.Write [111, 107]] ∧
      cacheKey exampleRequest exampleNow 0 = "GET-/-1136214245" ∧
      (out.cache.lookup "GET-/-1136214245").isSome = true) ∧
    (∃ out, ServeHTTP exampleEnv (New (-1) (-1) exampleHandler) ResponseWriter.fresh
        exampleRequest exampleNow exampleNow = some out ∧ out.invoked = [exampleRequest] ∧
      out.w.calls = [WriterCall.WriteHeader 200 out.w.header, WriterCall.Write [111, 107]] ∧
      out.cache.ll = []) := by
  obtain ⟨o1, h1, hi1, hc1, hk1, hs1, _, _⟩ := New_serves_every_configuration exampleEnv 0 0
    exampleHandler ResponseWriter.fresh exampleRequest exampleNow exampleNow
    { code := 200, header := exampleHeader, body := [111, 107] } rfl (by decide)
  obtain ⟨o2, h2, hi2, hc2, _, _, he2, _⟩ := New_serves_every_configuration exampleEnv (-1)
    (-1) exampleHandler ResponseWriter.fresh exampleRequest exampleNow exampleNow
    { code := 200, header := exampleHeader, body := [111, 107] } rfl (by decide)
  refine ⟨⟨o1, h1, hi1, hc1, (hk1 (by decide)).trans (by decide), ?_⟩,
    ⟨o2, h2, hi2, hc2, he2 (by decide)⟩⟩
  have hk : cacheKey exampleRequest exampleNow 0 = "GET-/-1136214245" := by decide
  rw [← hk, hs1 (by decide) (by decide)]
  rfl

end CacheProxy
